import Mathlib

/-!
Verification of the `throughputlb` gRPC load balancer
(`throughput_load_balancer.go`), shallowly embedded in Lean.

Go `int` is modelled as `Int` (the counter can go negative via
`release` misuse), `grpc.Address` as a structure of the address string
and the `Metadata` field (which `Start` fills with the slot index),
errors as an inductive type, and the notification channel as the list
of messages sent so far.  All theorems describe the single-threaded
(sequential) semantics of the code; the blocking branch of `next`
(sleep and rescan) is not modelled, only the `wait = false` path that
the claims are about.
-/

namespace ThroughputLB

/-- Health state of one backend address (`addrState` in the source;
`stateDown` is the zero value, so freshly built slots are down). -/
inductive AddrState where
  | down
  | up
deriving DecidableEq, Repr

/-- `grpc.Address`: the address string plus the `Metadata` field.
The balancer only ever stores a slot index (an int) or nothing in
`Metadata`, so it is modelled as `Option Nat`. -/
structure GrpcAddress where
  addr : String
  metadata : Option Nat
deriving DecidableEq, Repr

/-- The per-slot record `address`: embedded `grpc.Address`, health
state, current claimed count and the fixed ceiling. -/
structure Address where
  grpcAddr : GrpcAddress
  state : AddrState
  activeRequests : Int
  maxRequests : Int
deriving DecidableEq, Repr

/-- The two error values of the source: `errUnavailable`
(grpc `codes.Unavailable`) and `errMaxRequestsExceeded`. -/
inductive LBError where
  | unavailable
  | maxRequestsExceeded
deriving DecidableEq, Repr

/-- `(*address).claim`: fails with `errMaxRequestsExceeded` when
`activeRequests >= maxRequests`, otherwise increments
`activeRequests` and succeeds.  Returned as (error, new slot state). -/
def claim (a : Address) : Option LBError × Address :=
  if a.activeRequests ≥ a.maxRequests then
    (some LBError.maxRequestsExceeded, a)
  else
    (none, { a with activeRequests := a.activeRequests + 1 })

/-- `(*address).release`: unconditionally decrements `activeRequests`. -/
def release (a : Address) : Address :=
  { a with activeRequests := a.activeRequests - 1 }

/-- `(*address).goUp`: set health to up. -/
def goUp (a : Address) : Address :=
  { a with state := AddrState.up }

/-- `(*address).goDown`: set health to down; the error cause is
accepted and ignored (the source has a TODO for it). -/
def goDown (a : Address) (_cause : Option LBError) : Address :=
  { a with state := AddrState.down }

/-- `(*address).isUp`. -/
def isUp (a : Address) : Bool :=
  a.state == AddrState.up

/-- `(*address).isDown`. -/
def isDown (a : Address) : Bool :=
  a.state == AddrState.down

/-- `(*address).capacity`: reads `activeRequests`. -/
def capacity (a : Address) : Int :=
  a.activeRequests

/-- The balancer `ThroughputLoadBalancer`: slot list, target,
the notification channel modelled as the list of messages sent so
far (oldest first), the configured ceiling and pool size.  The
`cleanupInterval` knob is carried by the Go struct but never read by
any behavior, so it is omitted. -/
structure ThroughputLoadBalancer where
  addrs : List Address
  target : String
  notify : List (List GrpcAddress)
  maxRequests : Int
  numAddrs : Nat
deriving DecidableEq, Repr

/-- `NewThroughputLoadBalancer`: fresh balancer; the slot slice holds
only nil pointers until `Start` fills it, modelled by the empty list. -/
def NewThroughputLoadBalancer (maxRequests : Int) (numAddrs : Nat) :
    ThroughputLoadBalancer :=
  { addrs := []
    target := ""
    notify := []
    maxRequests := maxRequests
    numAddrs := numAddrs }

/-- The slot list built by `Start`: slot `i` gets address
`{Addr: target, Metadata: i}`, the configured ceiling, and the
zero-valued fields `stateDown` and `activeRequests = 0`. -/
def mkSlots (target : String) (maxRequests : Int) (n : Nat) : List Address :=
  (List.range n).map fun i =>
    { grpcAddr := { addr := target, metadata := some i }
      state := AddrState.down
      activeRequests := 0
      maxRequests := maxRequests }

/-- `sendNotify`: sends one snapshot of all slot addresses on the
notification channel. -/
def sendNotify (lb : ThroughputLoadBalancer) : ThroughputLoadBalancer :=
  { lb with notify := lb.notify ++ [lb.addrs.map (·.grpcAddr)] }

/-- `Start`: stores the target, rebuilds the slot list, then calls
`sendNotify` once. -/
def Start (lb : ThroughputLoadBalancer) (target : String) :
    ThroughputLoadBalancer :=
  sendNotify
    { lb with
      target := target
      addrs := mkSlots target lb.maxRequests lb.numAddrs }

/-- Replace the slot at index `i` by `f` of it (identity out of range);
used to model a method call on one slot of the balancer's slice. -/
def updateAt (l : List Address) (i : Nat) (f : Address → Address) :
    List Address :=
  match l, i with
  | [], _ => []
  | x :: xs, 0 => f x :: xs
  | x :: xs, n + 1 => x :: updateAt xs n f

/-- The search loop of `Up`: index of the first slot whose embedded
`grpc.Address` equals `addr` (Go compares the whole struct with `==`,
`Metadata` included), counting from `i`. -/
def upFind (l : List Address) (addr : GrpcAddress) (i : Nat) : Option Nat :=
  match l with
  | [] => none
  | a :: rest =>
    if a.grpcAddr == addr then some i else upFind rest addr (i + 1)

/-- `Up`: calls `goUp` on the first slot whose address equals `addr`
and returns its `goDown` method as the handle (modelled by the slot's
index); when no slot matches it returns a no-op handle (`none`). -/
def Up (lb : ThroughputLoadBalancer) (addr : GrpcAddress) :
    ThroughputLoadBalancer × Option Nat :=
  match upFind lb.addrs addr 0 with
  | some i => ({ lb with addrs := updateAt lb.addrs i goUp }, some i)
  | none => (lb, none)

/-- Invoking the handle returned by `Up`: `goDown` on the bound slot,
or nothing for the no-op handle. -/
def applyDownHandle (lb : ThroughputLoadBalancer) (h : Option Nat)
    (cause : Option LBError) : ThroughputLoadBalancer :=
  match h with
  | some i => { lb with addrs := updateAt lb.addrs i (fun a => goDown a cause) }
  | none => lb

/-- The scan loop of `next`: walk the slots (index `i` onward),
skip the down ones, and remember the first index strictly improving
the running lowest capacity, exactly as the Go loop does. -/
def scanGo (l : List Address) (i : Nat) (best : Option Nat)
    (lowest : Int) : Option Nat × Int :=
  match l with
  | [] => (best, lowest)
  | a :: rest =>
    if isDown a then scanGo rest (i + 1) best lowest
    else if capacity a < lowest then
      scanGo rest (i + 1) (some i) (capacity a)
    else scanGo rest (i + 1) best lowest

/-- One scan of `next`: sentinel `lowestCapacity = lb.maxRequests * 2`,
no slot selected initially. -/
def scan (lb : ThroughputLoadBalancer) : Option Nat :=
  (scanGo lb.addrs 0 none (lb.maxRequests * 2)).1

/-- `next` with `wait = false`: if the scan found a slot, call
`claim` on it — DISCARDING its error, as the source does — and return
it with a nil error; otherwise return `errUnavailable`. -/
def next (lb : ThroughputLoadBalancer) :
    Except LBError (Nat × ThroughputLoadBalancer) :=
  match scan lb with
  | some i =>
      Except.ok (i, { lb with addrs := updateAt lb.addrs i (fun a => (claim a).2) })
  | none => Except.error LBError.unavailable

instance : Inhabited Address :=
  ⟨{ grpcAddr := { addr := "", metadata := none }
     state := AddrState.down
     activeRequests := 0
     maxRequests := 0 }⟩

/-- `Get` with `BlockingWait = false`: returns the chosen slot's
address, its `release` method (modelled by the slot index), and the
error from `next`, if any. -/
def Get (lb : ThroughputLoadBalancer) :
    Except LBError (GrpcAddress × Nat × ThroughputLoadBalancer) :=
  match next lb with
  | Except.error e => Except.error e
  | Except.ok (i, lb2) =>
      Except.ok ((lb2.addrs.getD i default).grpcAddr, i, lb2)

/-! ### Helper lemmas about the scan -/

/-- Health is two-valued: a slot that is not down is up. -/
theorem isUp_of_not_isDown (a : Address) (h : isDown a = false) :
    isUp a = true := by
  cases hs : a.state
  · simp [isDown, hs] at h
  · simp [isUp, hs]

/-- Health is two-valued: a down slot is not up. -/
theorem not_isUp_of_isDown (a : Address) (h : isDown a = true) :
    isUp a = false := by
  cases hs : a.state
  · simp [isUp, hs]
  · simp [isDown, hs] at h

/-- Full characterization of the scan loop.  The final running lowest
is a lower bound on the initial one and on every up slot's capacity;
and either no slot improved the accumulator (all scanned slots are
down or at least the initial lowest), or the selected index points at
an up slot whose capacity is the final lowest, strictly below the
initial lowest, and strictly below every up slot scanned before it. -/
theorem scanGo_spec :
    ∀ (l : List Address) (k : Nat) (best : Option Nat) (lowest : Int),
    ((scanGo l k best lowest).2 ≤ lowest ∧
      ∀ a ∈ l, isUp a = true → (scanGo l k best lowest).2 ≤ capacity a) ∧
    (((scanGo l k best lowest).1 = best ∧ (scanGo l k best lowest).2 = lowest ∧
        ∀ a ∈ l, isUp a = true → lowest ≤ capacity a) ∨
      (∃ p a, l.get? p = some a ∧ (scanGo l k best lowest).1 = some (k + p) ∧
        (scanGo l k best lowest).2 = capacity a ∧ isUp a = true ∧
        capacity a < lowest ∧
        ∀ q b, q < p → l.get? q = some b → isUp b = true →
          capacity a < capacity b))
  | [], k, best, lowest => by simp [scanGo]
  | a :: rest, k, best, lowest => by
    by_cases hd : isDown a = true
    · have hup : isUp a = false := not_isUp_of_isDown a hd
      have IH := scanGo_spec rest (k + 1) best lowest
      have hstep : scanGo (a :: rest) k best lowest
          = scanGo rest (k + 1) best lowest := by
        simp [scanGo, hd]
      rw [hstep]
      refine ⟨⟨IH.1.1, ?_⟩, ?_⟩
      · intro x hx hxup
        rcases List.mem_cons.mp hx with h | h
        · rw [h] at hxup; rw [hxup] at hup; cases hup
        · exact IH.1.2 x h hxup
      · rcases IH.2 with ⟨h1, h2, h3⟩ | ⟨p, x, hget, hb, hlow, hxup, hlt, hprev⟩
        · refine Or.inl ⟨h1, h2, ?_⟩
          intro y hy hyup
          rcases List.mem_cons.mp hy with h | h
          · rw [h] at hyup; rw [hyup] at hup; cases hup
          · exact h3 y h hyup
        · refine Or.inr ⟨p + 1, x, hget, ?_, hlow, hxup, hlt, ?_⟩
          · rw [hb]; congr 1; omega
          · intro q b hq hqget hqup
            cases q with
            | zero =>
              simp only [List.get?] at hqget
              injection hqget with hba
              rw [← hba] at hqup
              rw [hqup] at hup
              cases hup
            | succ q' =>
              exact hprev q' b (by omega) hqget hqup
    · have hup : isUp a = true :=
        isUp_of_not_isDown a (by revert hd; cases isDown a <;> simp)
      have hdf : isDown a = false := by revert hd; cases isDown a <;> simp
      by_cases hc : capacity a < lowest
      · have IH := scanGo_spec rest (k + 1) (some k) (capacity a)
        have hstep : scanGo (a :: rest) k best lowest
            = scanGo rest (k + 1) (some k) (capacity a) := by
          simp [scanGo, hdf, hc]
        rw [hstep]
        refine ⟨⟨le_trans IH.1.1 (le_of_lt hc), ?_⟩, ?_⟩
        · intro x hx hxup
          rcases List.mem_cons.mp hx with h | h
          · rw [h]; exact IH.1.1
          · exact IH.1.2 x h hxup
        · rcases IH.2 with ⟨h1, h2, _⟩ | ⟨p, x, hget, hb, hlow, hxup, hlt, hprev⟩
          · refine Or.inr ⟨0, a, rfl, ?_, h2, hup, hc, ?_⟩
            · rw [h1]; simp
            · intro q b hq _ _; omega
          · refine Or.inr ⟨p + 1, x, hget, ?_, hlow, hxup, lt_trans hlt hc, ?_⟩
            · rw [hb]; congr 1; omega
            · intro q b hq hqget hqup
              cases q with
              | zero =>
                simp only [List.get?] at hqget
                injection hqget with hba
                rw [← hba]; exact hlt
              | succ q' =>
                exact hprev q' b (by omega) hqget hqup
      · have hge : lowest ≤ capacity a := le_of_not_lt hc
        have IH := scanGo_spec rest (k + 1) best lowest
        have hstep : scanGo (a :: rest) k best lowest
            = scanGo rest (k + 1) best lowest := by
          simp [scanGo, hdf, hc]
        rw [hstep]
        refine ⟨⟨IH.1.1, ?_⟩, ?_⟩
        · intro x hx hxup
          rcases List.mem_cons.mp hx with h | h
          · rw [h]; exact le_trans IH.1.1 hge
          · exact IH.1.2 x h hxup
        · rcases IH.2 with ⟨h1, h2, h3⟩ | ⟨p, x, hget, hb, hlow, hxup, hlt, hprev⟩
          · refine Or.inl ⟨h1, h2, ?_⟩
            intro y hy hyup
            rcases List.mem_cons.mp hy with h | h
            · rw [h]; exact hge
            · exact h3 y h hyup
          · refine Or.inr ⟨p + 1, x, hget, ?_, hlow, hxup, hlt, ?_⟩
            · rw [hb]; congr 1; omega
            · intro q b hq hqget hqup
              cases q with
              | zero =>
                simp only [List.get?] at hqget
                injection hqget with hba
                rw [← hba]; exact lt_of_lt_of_le hlt hge
              | succ q' =>
                exact hprev q' b (by omega) hqget hqup

/-- If every slot is down or has capacity at least the initial
lowest, the scan selects nothing. -/
theorem scan_none (lb : ThroughputLoadBalancer)
    (h : ∀ a ∈ lb.addrs, isDown a = true ∨ lb.maxRequests * 2 ≤ capacity a) :
    scan lb = none := by
  have hs := scanGo_spec lb.addrs 0 none (lb.maxRequests * 2)
  rcases hs.2 with ⟨h1, _, _⟩ | ⟨p, x, hget, hb, _, hxup, hlt, _⟩
  · exact h1
  · exfalso
    have hx : x ∈ lb.addrs := List.get?_mem hget
    rcases h x hx with hdn | hcap
    · rw [not_isUp_of_isDown x hdn] at hxup; cases hxup
    · omega

/-- `claim` preserves the ceiling field. -/
theorem claim_maxRequests (a : Address) :
    (claim a).2.maxRequests = a.maxRequests := by
  unfold claim; split <;> rfl

/-- `claim` preserves the health field. -/
theorem claim_state (a : Address) : (claim a).2.state = a.state := by
  unfold claim; split <;> rfl

/-! ### Claim theorems -/

/-- C3: `claim()` succeeds and increments `activeRequests` by exactly
one iff `activeRequests < maxRequests`; otherwise it fails with
`errMaxRequestsExceeded` and leaves every field of the slot
unchanged. -/
theorem claim_increments_iff_below_ceiling (a : Address) :
    claim a =
      (if a.activeRequests < a.maxRequests then none
        else some LBError.maxRequestsExceeded,
       if a.activeRequests < a.maxRequests then
         { a with activeRequests := a.activeRequests + 1 }
       else a) := by
  unfold claim
  by_cases h : a.activeRequests ≥ a.maxRequests
  · rw [if_pos h, if_neg (not_lt.mpr h), if_neg (not_lt.mpr h)]
  · rw [if_neg h, if_pos (lt_of_not_ge h), if_pos (lt_of_not_ge h)]

/-- The only error `next` can produce is `errUnavailable`. -/
theorem next_error_unavailable (lb : ThroughputLoadBalancer) (e : LBError)
    (h : next lb = Except.error e) : e = LBError.unavailable := by
  unfold next at h
  cases hs : scan lb <;> rw [hs] at h
  · injection h with h'
    exact h'.symm
  · cases h

/-- C5: the `errMaxRequestsExceeded` value never reaches the external
caller: `Get` (non-blocking) returns either success (nil error) or
`errUnavailable`, even when `claim` on the chosen slot fails, because
`next` discards `claim`'s return value. -/
theorem get_returns_nil_or_unavailable (lb : ThroughputLoadBalancer) :
    Get lb = Except.error LBError.unavailable ∨
      ∃ r, Get lb = Except.ok r := by
  cases h : next lb with
  | error e =>
    left
    have he := next_error_unavailable lb e h
    unfold Get
    rw [h, he]
  | ok p =>
    obtain ⟨i, lb2⟩ := p
    right
    refine ⟨((lb2.addrs.getD i default).grpcAddr, i, lb2), ?_⟩
    unfold Get
    rw [h]

/-- A concrete slot that is up and exactly at its ceiling. -/
def slotAtCeiling : Address :=
  { grpcAddr := { addr := "t", metadata := some 0 }
    state := AddrState.up
    activeRequests := 0
    maxRequests := 0 }

/-- C6 counterexample: on a slot at its ceiling, `claim()` fails
without mutating, and the following `release()` still decrements, so
the round trip ends one below the pre-claim value, not equal to it. -/
theorem claim_release_roundtrip_cx :
    (release (claim slotAtCeiling).2).activeRequests ≠
      slotAtCeiling.activeRequests := by decide

/-- C6 amended: when `claim()` succeeds, an immediately following
`release()` restores `activeRequests` to its pre-claim value. -/
theorem claim_release_roundtrip_of_success (a : Address)
    (h : (claim a).1 = none) :
    (release (claim a).2).activeRequests = a.activeRequests := by
  unfold claim at *
  by_cases hge : a.activeRequests ≥ a.maxRequests
  · rw [if_pos hge] at h; cases h
  · rw [if_neg hge]; simp [release]

/-- A concrete slot that is up and idle, with ceiling 2. -/
def slotIdle : Address :=
  { grpcAddr := { addr := "t", metadata := some 0 }
    state := AddrState.up
    activeRequests := 0
    maxRequests := 2 }

/-- Witness for C6 amended at a concrete slot with headroom. -/
theorem claim_release_roundtrip_witness :
    (release (claim slotIdle).2).activeRequests = slotIdle.activeRequests :=
  claim_release_roundtrip_of_success slotIdle (by decide)

/-- A claim or release call on one slot. -/
inductive SlotOp where
  | claimOp
  | releaseOp
deriving DecidableEq, Repr

/-- Run one operation on a slot. -/
def runOp (a : Address) (op : SlotOp) : Address :=
  match op with
  | SlotOp.claimOp => (claim a).2
  | SlotOp.releaseOp => release a

/-- Run a sequence of operations on a slot. -/
def runOps (a : Address) (ops : List SlotOp) : Address :=
  ops.foldl runOp a

/-- No interleaving misuse: every `release` happens while
`activeRequests > 0`, i.e. a matching earlier successful `claim` is
still outstanding. -/
def noMisuse : Address → List SlotOp → Bool
  | _, [] => true
  | a, SlotOp.claimOp :: ops => noMisuse ((claim a).2) ops
  | a, SlotOp.releaseOp :: ops =>
      decide (0 < a.activeRequests) && noMisuse (release a) ops

/-- Invariant lemma for C7: along any misuse-free sequence, the
counter stays within `[0, maxRequests]`. -/
theorem runOps_bounds :
    ∀ (ops : List SlotOp) (a : Address),
      0 ≤ a.activeRequests → a.activeRequests ≤ a.maxRequests →
      noMisuse a ops = true →
      0 ≤ (runOps a ops).activeRequests ∧
        (runOps a ops).activeRequests ≤ (runOps a ops).maxRequests
  | [], a, h0, h1, _ => by simpa [runOps] using ⟨h0, h1⟩
  | SlotOp.claimOp :: ops, a, h0, h1, hm => by
    have hm' : noMisuse ((claim a).2) ops = true := by
      simpa [noMisuse] using hm
    have hruns : runOps a (SlotOp.claimOp :: ops)
        = runOps ((claim a).2) ops := rfl
    rw [hruns]
    refine runOps_bounds ops ((claim a).2) ?_ ?_ hm'
    · unfold claim
      by_cases h : a.activeRequests ≥ a.maxRequests
      · rw [if_pos h]; exact h0
      · rw [if_neg h]; simp; omega
    · unfold claim
      by_cases h : a.activeRequests ≥ a.maxRequests
      · rw [if_pos h]; exact h1
      · rw [if_neg h]; simp; omega
  | SlotOp.releaseOp :: ops, a, h0, h1, hm => by
    have hm2 : (0 < a.activeRequests) ∧ noMisuse (release a) ops = true := by
      simpa [noMisuse] using hm
    have hruns : runOps a (SlotOp.releaseOp :: ops)
        = runOps (release a) ops := rfl
    rw [hruns]
    refine runOps_bounds ops (release a) ?_ ?_ hm2.2
    · simp [release]; omega
    · simp [release]; omega

/-- `runOps` never changes the ceiling field. -/
theorem runOps_maxRequests :
    ∀ (ops : List SlotOp) (a : Address),
      (runOps a ops).maxRequests = a.maxRequests
  | [], _ => rfl
  | SlotOp.claimOp :: ops, a => by
    have hruns : runOps a (SlotOp.claimOp :: ops)
        = runOps ((claim a).2) ops := rfl
    rw [hruns, runOps_maxRequests ops, claim_maxRequests]
  | SlotOp.releaseOp :: ops, a => by
    have hruns : runOps a (SlotOp.releaseOp :: ops)
        = runOps (release a) ops := rfl
    rw [hruns, runOps_maxRequests ops]; rfl

/-- C7: starting from `activeRequests = 0` with `maxRequests > 0`,
after any misuse-free sequence of `claim`/`release` calls the counter
satisfies `0 ≤ activeRequests ≤ maxRequests`. -/
theorem activeRequests_bounds_of_no_misuse (a : Address)
    (ops : List SlotOp) (hstart : a.activeRequests = 0)
    (hmax : 0 < a.maxRequests) (hm : noMisuse a ops = true) :
    0 ≤ (runOps a ops).activeRequests ∧
      (runOps a ops).activeRequests ≤ a.maxRequests := by
  have h := runOps_bounds ops a (by omega) (by omega) hm
  rw [runOps_maxRequests ops a] at h
  exact h

/-- Witness for C7 on a concrete slot and operation sequence. -/
theorem activeRequests_bounds_witness :
    0 ≤ (runOps slotIdle
        [SlotOp.claimOp, SlotOp.claimOp, SlotOp.releaseOp]).activeRequests ∧
      (runOps slotIdle
        [SlotOp.claimOp, SlotOp.claimOp, SlotOp.releaseOp]).activeRequests ≤
        slotIdle.maxRequests :=
  activeRequests_bounds_of_no_misuse slotIdle
    [SlotOp.claimOp, SlotOp.claimOp, SlotOp.releaseOp]
    (by decide) (by decide) (by decide)

/-- A one-slot pool whose only slot is up and exactly at its ceiling
(`activeRequests = maxRequests = 1`). -/
def lbAtCeiling : ThroughputLoadBalancer :=
  { addrs := [{ grpcAddr := { addr := "t", metadata := some 0 }
                state := AddrState.up
                activeRequests := 1
                maxRequests := 1 }]
    target := "t"
    notify := []
    maxRequests := 1
    numAddrs := 1 }

/-- C1 counterexample: in a pool whose only slot is up and at its
ceiling, non-blocking `next` does NOT fail with `errUnavailable`: the
scan sentinel is `maxRequests * 2`, so the at-ceiling slot (capacity
1 < 2) is still selected; its `claim` fails and mutates nothing, the
error is discarded, and the slot is returned with a nil error. -/
theorem next_all_at_ceiling_cx :
    lbAtCeiling.addrs.all
        (fun a => !isUp a || decide (a.maxRequests ≤ a.activeRequests))
      = true ∧
    next lbAtCeiling = Except.ok (0, lbAtCeiling) :=
  ⟨by decide, rfl⟩

/-- C1 amended: if every slot is down, or every up slot has
`activeRequests ≥ maxRequests * 2` (the scan sentinel), then
non-blocking `next` fails with `errUnavailable`; on that path no
`claim` is performed, so no slot's counter changes.  (An up slot that
is merely at its ceiling, with `activeRequests < maxRequests * 2`, is
still selected and returned with a nil error.) -/
theorem next_unavailable_of_all_down_or_double_ceiling
    (lb : ThroughputLoadBalancer)
    (h : ∀ a ∈ lb.addrs, isDown a = true ∨
        lb.maxRequests * 2 ≤ capacity a) :
    next lb = Except.error LBError.unavailable := by
  unfold next
  rw [scan_none lb h]

/-- A two-slot pool with both slots down. -/
def lbAllDown : ThroughputLoadBalancer :=
  { addrs := [{ grpcAddr := { addr := "t", metadata := some 0 }
                state := AddrState.down
                activeRequests := 0
                maxRequests := 5 },
              { grpcAddr := { addr := "t", metadata := some 1 }
                state := AddrState.down
                activeRequests := 0
                maxRequests := 5 }]
    target := "t"
    notify := []
    maxRequests := 5
    numAddrs := 2 }

/-- Witness for C1 amended on a concrete all-down pool. -/
theorem next_unavailable_all_down_witness :
    next lbAllDown = Except.error LBError.unavailable :=
  next_unavailable_of_all_down_or_double_ceiling lbAllDown (by decide)

/-- C10: with a nonpositive configured ceiling, the sentinel
`maxRequests * 2` is nonpositive while every (non-corrupted) slot's
capacity is nonnegative, so no slot is ever selected and non-blocking
`next` always fails with `errUnavailable`, even on an all-up, idle
pool. -/
theorem next_unavailable_of_nonpositive_ceiling
    (lb : ThroughputLoadBalancer) (hmax : lb.maxRequests ≤ 0)
    (hcap : ∀ a ∈ lb.addrs, 0 ≤ capacity a) :
    next lb = Except.error LBError.unavailable := by
  have h : ∀ a ∈ lb.addrs, isDown a = true ∨
      lb.maxRequests * 2 ≤ capacity a := by
    intro a ha
    right
    have := hcap a ha
    omega
  unfold next
  rw [scan_none lb h]

/-- A pool built with ceiling 0 whose only slot is up and idle. -/
def lbZeroCeiling : ThroughputLoadBalancer :=
  { addrs := [{ grpcAddr := { addr := "t", metadata := some 0 }
                state := AddrState.up
                activeRequests := 0
                maxRequests := 0 }]
    target := "t"
    notify := []
    maxRequests := 0
    numAddrs := 1 }

/-- Witness for C10 on a concrete ceiling-0 pool with an up, idle
slot. -/
theorem next_unavailable_zero_ceiling_witness :
    next lbZeroCeiling = Except.error LBError.unavailable :=
  next_unavailable_of_nonpositive_ceiling lbZeroCeiling (by decide) (by decide)

/-- C4: non-blocking `next` never returns a down slot: whatever slot
index it returns pointed, at scan time, at a slot whose health was
up (the scan skips every down slot). -/
theorem next_never_returns_down_slot (lb : ThroughputLoadBalancer)
    (i : Nat) (lb2 : ThroughputLoadBalancer)
    (h : next lb = Except.ok (i, lb2)) :
    ∃ a, lb.addrs.get? i = some a ∧ isUp a = true := by
  unfold next at h
  cases hs : scan lb <;> rw [hs] at h
  · cases h
  · rename_i j
    injection h with h'
    injection h' with h1 h2
    subst h1
    have hs' : (scanGo lb.addrs 0 none (lb.maxRequests * 2)).1 = some j := hs
    have hspec := scanGo_spec lb.addrs 0 none (lb.maxRequests * 2)
    rcases hspec.2 with ⟨h1, _, _⟩ | ⟨p, a, hget, hb, _, hup, _, _⟩
    · rw [h1] at hs'; cases hs'
    · rw [hb] at hs'
      injection hs' with hpj
      have hpj' : p = j := by omega
      subst hpj'
      exact ⟨a, hget, hup⟩

/-- Witness for C4: in the at-ceiling pool `next` returns slot 0,
which is indeed up. -/
theorem next_never_returns_down_slot_witness :
    ∃ a, lbAtCeiling.addrs.get? 0 = some a ∧ isUp a = true :=
  next_never_returns_down_slot lbAtCeiling 0 lbAtCeiling rfl

/-- C2: when the pool holds at least one up, under-ceiling slot (and
the per-slot ceilings agree with the configured positive ceiling, as
`Start` guarantees), non-blocking `next` returns an up, under-ceiling
slot whose load is lowest among all up, under-ceiling slots, and
strictly lower than the load of any such slot with a smaller index
(ties are broken toward the lowest index). -/
theorem next_selects_least_loaded (lb : ThroughputLoadBalancer)
    (hmax : 0 < lb.maxRequests)
    (hceil : ∀ a ∈ lb.addrs, a.maxRequests = lb.maxRequests)
    (hex : ∃ e ∈ lb.addrs,
        isUp e = true ∧ e.activeRequests < e.maxRequests) :
    ∃ p a lb2, lb.addrs.get? p = some a ∧
      next lb = Except.ok (p, lb2) ∧
      isUp a = true ∧ a.activeRequests < a.maxRequests ∧
      (∀ q b, lb.addrs.get? q = some b → isUp b = true →
        b.activeRequests < b.maxRequests →
        a.activeRequests ≤ b.activeRequests ∧
          (q < p → a.activeRequests < b.activeRequests)) := by
  obtain ⟨e, he, heup, helt⟩ := hex
  have hemax := hceil e he
  have hspec := scanGo_spec lb.addrs 0 none (lb.maxRequests * 2)
  rcases hspec.2 with ⟨_, _, h3⟩ | ⟨p, a, hget, hb, hlow, hup, _, hprev⟩
  · exfalso
    have h2m := h3 e he heup
    have hce : capacity e = e.activeRequests := rfl
    omega
  · have hA2 := hspec.1.2
    have hscan : scan lb = some p := by
      have : (scanGo lb.addrs 0 none (lb.maxRequests * 2)).1
          = some (0 + p) := hb
      simpa [scan] using this
    have hamax := hceil a (List.get?_mem hget)
    have hcap_ae : capacity a ≤ capacity e := by
      rw [← hlow]; exact hA2 e he heup
    have hca : capacity a = a.activeRequests := rfl
    have hce : capacity e = e.activeRequests := rfl
    refine ⟨p, a,
      { lb with addrs := updateAt lb.addrs p (fun x => (claim x).2) },
      hget, ?_, hup, ?_, ?_⟩
    · unfold next
      rw [hscan]
    · omega
    · intro q b hq hbup hblt
      have hcap_ab : capacity a ≤ capacity b := by
        rw [← hlow]; exact hA2 b (List.get?_mem hq) hbup
      have hcb : capacity b = b.activeRequests := rfl
      refine ⟨by omega, ?_⟩
      intro hqp
      have := hprev q b hqp hq hbup
      omega

/-- The pool of the spec's scenario: three up slots with ceiling 2
and loads 2, 1, 0. -/
def lbScenario : ThroughputLoadBalancer :=
  { addrs := [{ grpcAddr := { addr := "t", metadata := some 0 }
                state := AddrState.up
                activeRequests := 2
                maxRequests := 2 },
              { grpcAddr := { addr := "t", metadata := some 1 }
                state := AddrState.up
                activeRequests := 1
                maxRequests := 2 },
              { grpcAddr := { addr := "t", metadata := some 2 }
                state := AddrState.up
                activeRequests := 0
                maxRequests := 2 }]
    target := "t"
    notify := []
    maxRequests := 2
    numAddrs := 3 }

/-- Witness for C2 on the spec's three-slot scenario. -/
theorem next_selects_least_loaded_witness :
    ∃ p a lb2, lbScenario.addrs.get? p = some a ∧
      next lbScenario = Except.ok (p, lb2) ∧
      isUp a = true ∧ a.activeRequests < a.maxRequests ∧
      (∀ q b, lbScenario.addrs.get? q = some b → isUp b = true →
        b.activeRequests < b.maxRequests →
        a.activeRequests ≤ b.activeRequests ∧
          (q < p → a.activeRequests < b.activeRequests)) :=
  next_selects_least_loaded lbScenario (by decide) (by decide) (by decide)

/-- The slot addresses built by `Start` are the target paired with
each index. -/
theorem mkSlots_map_grpcAddr (t : String) (m : Int) (n : Nat) :
    (mkSlots t m n).map (·.grpcAddr)
      = (List.range n).map (fun i => { addr := t, metadata := some i }) := by
  simp only [mkSlots, List.map_map]
  rfl

/-- C8: `Start` on a freshly constructed balancer with pool size `n`
publishes exactly one snapshot on the notification channel — the list
of all `n` slot addresses (the target paired with each index),
regardless of health — and initializes every slot down and idle with
the configured ceiling. -/
theorem start_publishes_one_snapshot (m : Int) (n : Nat) (t : String) :
    (Start (NewThroughputLoadBalancer m n) t).notify
        = [(List.range n).map (fun i => { addr := t, metadata := some i })] ∧
      (Start (NewThroughputLoadBalancer m n) t).addrs.length = n ∧
      (Start (NewThroughputLoadBalancer m n) t).addrs.map (·.grpcAddr)
        = (List.range n).map (fun i => { addr := t, metadata := some i }) ∧
      (Start (NewThroughputLoadBalancer m n) t).addrs.all
        (fun a => isDown a && decide (a.activeRequests = 0)
            && decide (a.maxRequests = m)) = true := by
  have haddrs : (Start (NewThroughputLoadBalancer m n) t).addrs
      = mkSlots t m n := rfl
  refine ⟨?_, ?_, ?_, ?_⟩
  · show [] ++ [(mkSlots t m n).map (·.grpcAddr)] = _
    rw [List.nil_append, mkSlots_map_grpcAddr]
  · rw [haddrs]; simp [mkSlots]
  · rw [haddrs, mkSlots_map_grpcAddr]
  · rw [haddrs, List.all_eq_true]
    intro a ha
    simp only [mkSlots, List.mem_map, List.mem_range] at ha
    obtain ⟨i, _, rfl⟩ := ha
    simp [isDown]

/-- A started one-slot balancer (ceiling 5, target "t"). -/
def lbStarted : ThroughputLoadBalancer :=
  Start (NewThroughputLoadBalancer 5 1) "t"

/-- The slot `Start` builds at index 0 of `lbStarted`. -/
def slotStarted : Address :=
  { grpcAddr := { addr := "t", metadata := some 0 }
    state := AddrState.down
    activeRequests := 0
    maxRequests := 5 }

/-- The bare target address, without the slot-index metadata that
`Start` stores in `Metadata`. -/
def baseAddr : GrpcAddress := { addr := "t", metadata := none }

/-- C9 counterexample: calling `Up` with only the base address (no
index metadata) matches NO slot — `Up` compares the whole
`grpc.Address` struct, `Metadata` (the slot index) included — so it
returns the no-op handle and every slot stays down, contrary to the
claim that a base-address caller still gets its slot marked up. -/
theorem up_base_address_no_match_cx :
    (Up lbStarted baseAddr).2 = none ∧
      (Up lbStarted baseAddr).1 = lbStarted ∧
      lbStarted.addrs.all isDown = true :=
  ⟨rfl, rfl, by decide⟩

/-- First-match characterization of the `Up` search loop. -/
theorem upFind_spec :
    ∀ (l : List Address) (addr : GrpcAddress) (k : Nat),
      (upFind l addr k = none ∧ ∀ a ∈ l, a.grpcAddr ≠ addr) ∨
      (∃ p a, l.get? p = some a ∧ upFind l addr k = some (k + p) ∧
        a.grpcAddr = addr ∧
        ∀ q b, q < p → l.get? q = some b → b.grpcAddr ≠ addr)
  | [], addr, k => by
    left
    exact ⟨rfl, by intro a ha; cases ha⟩
  | a :: rest, addr, k => by
    by_cases h : a.grpcAddr = addr
    · right
      refine ⟨0, a, rfl, ?_, h, ?_⟩
      · show upFind (a :: rest) addr k = some (k + 0)
        unfold upFind
        rw [if_pos (by simp [h])]
        simp
      · intro q b hq _
        omega
    · have hdef : upFind (a :: rest) addr k
          = if (a.grpcAddr == addr) = true then some k
            else upFind rest addr (k + 1) := rfl
      have hstep : upFind (a :: rest) addr k = upFind rest addr (k + 1) := by
        rw [hdef, if_neg (by simp [h])]
      rcases upFind_spec rest addr (k + 1) with ⟨h1, h2⟩ |
          ⟨p, x, hget, hf, heq, hprev⟩
      · left
        refine ⟨by rw [hstep]; exact h1, ?_⟩
        intro y hy
        rcases List.mem_cons.mp hy with rfl | hy'
        · exact h
        · exact h2 y hy'
      · right
        refine ⟨p + 1, x, hget, ?_, heq, ?_⟩
        · rw [hstep, hf]; congr 1; omega
        · intro q b hq hbget
          cases q with
          | zero =>
            simp only [List.get?] at hbget
            injection hbget with hba
            rw [← hba]
            exact h
          | succ q' => exact hprev q' b (by omega) hbget

/-- `updateAt` rewrites exactly the targeted index. -/
theorem updateAt_get_same :
    ∀ (l : List Address) (p : Nat) (f : Address → Address) (a : Address),
      l.get? p = some a → (updateAt l p f).get? p = some (f a)
  | [], _, _, _ => by intro h; cases h
  | x :: xs, 0, f, a => by
    intro h
    injection h with h'
    subst h'
    rfl
  | x :: xs, p + 1, f, a => by
    intro h
    exact updateAt_get_same xs p f a h

/-- `updateAt` leaves every other index unchanged. -/
theorem updateAt_get_other :
    ∀ (l : List Address) (p q : Nat) (f : Address → Address), q ≠ p →
      (updateAt l p f).get? q = l.get? q
  | [], _, _, _, _ => rfl
  | _ :: _, 0, 0, _, h => absurd rfl h
  | _ :: _, 0, _ + 1, _, _ => rfl
  | _ :: _, _ + 1, 0, _, _ => rfl
  | _ :: xs, p + 1, q + 1, f, h => by
    have hqp : q ≠ p := fun hqp => h (by rw [hqp])
    exact updateAt_get_other xs p q f hqp

/-- C9 amended: `Up` matches by exact structural equality on the full
`grpc.Address`, index metadata included.  When no slot's address
equals `addr` exactly, it returns the balancer unchanged with the
no-op handle.  When index `p` holds the first slot whose address
equals `addr` exactly, that slot is transitioned to up, every other
slot is untouched, the handle is bound to index `p`, and invoking the
handle transitions that same slot back to down. -/
theorem up_exact_match_spec (lb : ThroughputLoadBalancer)
    (addr : GrpcAddress) :
    ((∀ a ∈ lb.addrs, a.grpcAddr ≠ addr) → Up lb addr = (lb, none)) ∧
    (∀ p a, lb.addrs.get? p = some a → a.grpcAddr = addr →
      (∀ q b, q < p → lb.addrs.get? q = some b → b.grpcAddr ≠ addr) →
      (Up lb addr).2 = some p ∧
        (Up lb addr).1.addrs.get? p = some (goUp a) ∧
        (∀ q, q ≠ p → (Up lb addr).1.addrs.get? q = lb.addrs.get? q) ∧
        (applyDownHandle (Up lb addr).1 (Up lb addr).2 none).addrs.get? p
          = some (goDown (goUp a) none)) := by
  constructor
  · intro hno
    rcases upFind_spec lb.addrs addr 0 with ⟨h1, _⟩ |
        ⟨p, x, hget, _, heq, _⟩
    · unfold Up
      rw [h1]
    · exact absurd heq (hno x (List.get?_mem hget))
  · intro p a hget heq hfirst
    rcases upFind_spec lb.addrs addr 0 with ⟨_, h2⟩ |
        ⟨p', x, hget', hf, heq', hprev⟩
    · exact absurd heq (h2 a (List.get?_mem hget))
    · have hpp : p' = p := by
        rcases Nat.lt_trichotomy p' p with hlt | hE | hgt
        · exact absurd heq' (hfirst p' x hlt hget')
        · exact hE
        · exact absurd heq (hprev p a hgt hget)
      rw [hpp] at hf
      have hfind : upFind lb.addrs addr 0 = some p := by
        rw [hf]; congr 1; omega
      have hup : Up lb addr
          = ({ lb with addrs := updateAt lb.addrs p goUp }, some p) := by
        unfold Up
        rw [hfind]
      rw [hup]
      refine ⟨rfl, ?_, ?_, ?_⟩
      · exact updateAt_get_same lb.addrs p goUp a hget
      · intro q hq
        exact updateAt_get_other lb.addrs p q goUp hq
      · exact updateAt_get_same _ p _ (goUp a)
          (updateAt_get_same lb.addrs p goUp a hget)

/-- Witness for C9 amended: on the started one-slot balancer, a
non-matching address yields the no-op handle, and the exact address
(with index metadata) marks slot 0 up, with the handle marking it
back down. -/
theorem up_exact_match_witness :
    Up lbStarted baseAddr = (lbStarted, none) ∧
      ((Up lbStarted { addr := "t", metadata := some 0 }).2 = some 0 ∧
        (Up lbStarted { addr := "t", metadata := some 0 }).1.addrs.get? 0
          = some (goUp slotStarted) ∧
        (∀ q, q ≠ 0 →
          (Up lbStarted { addr := "t", metadata := some 0 }).1.addrs.get? q
            = lbStarted.addrs.get? q) ∧
        (applyDownHandle
            (Up lbStarted { addr := "t", metadata := some 0 }).1
            (Up lbStarted { addr := "t", metadata := some 0 }).2
            none).addrs.get? 0
          = some (goDown (goUp slotStarted) none)) :=
  ⟨(up_exact_match_spec lbStarted baseAddr).1 (by decide),
    (up_exact_match_spec lbStarted { addr := "t", metadata := some 0 }).2
      0 slotStarted rfl rfl
      (by intro q b hq _; exact absurd hq (Nat.not_lt_zero q))⟩

end ThroughputLB
